import Mathlib

/-!
Verification of the pdf-exam-question-extractor repository's pipeline
scheduler, hardware auto-tuning, task-store step gating, and SSE reader
against its natural-language specification.

Each definition is a shallow embedding of a function in the repository's
sources (the `manage.py` code in the optimization plan, the
`HybridPipelineManager` code in the hybrid-pipeline plan, the frontend
task store, and the SSE reader).  Machine floats that only ever hold
exact small values (GB figures, the 0.1s timeout) are modelled as `ℚ`;
Python ints as `ℕ`/`ℤ`.
-/

/- ------------------------------------------------------------------
   HardwareProbe: `detect_hardware` from the optimization plan
   (manage.py, Phase 0).
   ------------------------------------------------------------------ -/

/-- Outcome of the GPU VRAM probe (`nvidia-smi` query + parse of the first
device, in a `try` block whose handler catches every exception).
`ok mb` carries the parsed total memory of the first GPU in MB. -/
inductive GpuProbe where
  | ok (vram_mb : ℕ)
  | err
deriving DecidableEq

/-- Outcome of the available-RAM probe.  The source wraps
`import psutil; psutil.virtual_memory().available / (1024**3)` in a `try`
block whose only handler is `except ImportError`, so a failure of the
memory query itself (any non-ImportError exception) is not caught. -/
inductive RamProbe where
  | ok (ram_gb : ℚ)
  | importError
  | queryError
deriving DecidableEq

/-- Hardware profile returned by `detect_hardware` (the `config` dict). -/
structure HwConfig where
  gpu_vram_gb : ℚ
  ram_gb : ℚ
  cpu_cores : ℕ
deriving DecidableEq

/-- Python's `os.cpu_count() or 4`: `or` falls through on falsy values,
so both `None` and `0` yield `4`. -/
def cpuCountOr4 : Option ℕ → ℕ
  | none => 4
  | some n => if n = 0 then 4 else n

/-- Embedding of `detect_hardware()` from the plan's `manage.py` code: three independent
probes with per-probe fallbacks.  The result is `Except Unit HwConfig`;
`Except.error ()` models an exception escaping `detect_hardware`, which
happens exactly when the RAM query fails with a non-ImportError exception
(only `ImportError` is caught on that probe). -/
def detect_hardware (g : GpuProbe) (r : RamProbe) (c : Option ℕ) :
    Except Unit HwConfig :=
  let vram : ℚ :=
    match g with
    | .ok mb => (mb : ℚ) / 1024
    | .err => 0
  match r with
  | .queryError => .error ()
  | .importError => .ok ⟨vram, 8, cpuCountOr4 c⟩
  | .ok ram => .ok ⟨vram, ram, cpuCountOr4 c⟩

/-- The GPU component of the profile, as a function of the GPU probe alone:
parsed MB over 1024 on success, the conservative fallback 0 on any failure. -/
def gpuFallbackGb : GpuProbe → ℚ
  | .ok mb => (mb : ℚ) / 1024
  | .err => 0

/- ------------------------------------------------------------------
   ParameterCalculator: `calculate_optimal_params` from the same plan.
   ------------------------------------------------------------------ -/

/-- Python `int()` applied to a rational: truncation toward zero. -/
def pyInt (q : ℚ) : ℤ :=
  if q < 0 then ⌈q⌉ else ⌊q⌋

/-- The tuning knobs derived by `calculate_optimal_params` (the values of
`EXAMPAPER_DET_BATCH_SIZE`, `EXAMPAPER_REC_BATCH_SIZE`,
`EXAMPAPER_PREFETCH_SIZE`, `EXAMPAPER_MAX_WORKERS`). -/
structure OptimalParams where
  det_batch : ℕ
  rec_batch : ℕ
  prefetch : ℕ
  workers : ℕ
deriving DecidableEq

/-- Embedding of `calculate_optimal_params(hw)`: tiered batch sizes by VRAM, prefetch
depth `max(4, min(int(ram / 0.5), 16))`, workers
`max(2, min(cores // 2, 6))`. -/
def calculate_optimal_params (hw : HwConfig) : OptimalParams :=
  let vram := hw.gpu_vram_gb
  let ram := hw.ram_gb
  let cores := hw.cpu_cores
  let db : ℕ × ℕ :=
    if vram ≤ 4 then (1, 8)
    else if vram ≤ 6 then (2, 16)
    else if vram ≤ 8 then (3, 24)
    else (4, 32)
  let prefetch : ℕ := max 4 (min (pyInt (ram / (0.5 : ℚ))).toNat 16)
  let workers : ℕ := max 2 (min (cores / 2) 6)
  ⟨db.1, db.2, prefetch, workers⟩

/- ------------------------------------------------------------------
   C5 / C7 theorems.
   ------------------------------------------------------------------ -/

/-- C5 counterexample input: a 10-core machine (6GB VRAM, 24GB RAM). -/
def hwTenCores : HwConfig := ⟨6, 24, 10⟩

/-- C5: the claim `workers = clamp(cpu_cores // 2, 2, 4)` (hence ≤ 4) is
false on the code: with 10 CPU cores, `calculate_optimal_params` derives
5 workers, while `clamp(10 // 2, 2, 4) = 4`. -/
theorem calc_workers_clamp4_counterexample :
    (calculate_optimal_params hwTenCores).workers = 5 ∧
      (calculate_optimal_params hwTenCores).workers ≠ min (max (10 / 2) 2) 4 ∧
      ¬ (calculate_optimal_params hwTenCores).workers ≤ 4 := by
  refine ⟨?_, ?_, ?_⟩ <;> decide

/-- C5 (amended): for every hardware profile, the derived worker count
equals `clamp(cpu_cores // 2, 2, 6)`, so it never exceeds 6 (not 4). -/
theorem calc_workers_clamp6 :
    ∀ hw : HwConfig,
      (calculate_optimal_params hw).workers = min (max (hw.cpu_cores / 2) 2) 6 ∧
        (calculate_optimal_params hw).workers ≤ 6 := by
  intro hw
  constructor
  · show max 2 (min (hw.cpu_cores / 2) 6) = min (max (hw.cpu_cores / 2) 2) 6
    omega
  · show max 2 (min (hw.cpu_cores / 2) 6) ≤ 6
    omega

/-- The detector/recognizer batch pair, as a function of VRAM alone
(the tier chain of `calculate_optimal_params`). -/
theorem calc_batches_eq (hw : HwConfig) :
    ((calculate_optimal_params hw).det_batch, (calculate_optimal_params hw).rec_batch) =
      (if hw.gpu_vram_gb ≤ 4 then (1, 8)
       else if hw.gpu_vram_gb ≤ 6 then (2, 16)
       else if hw.gpu_vram_gb ≤ 8 then (3, 24)
       else (4, 32)) := by
  unfold calculate_optimal_params
  split <;> simp_all

/-- C7: holding RAM and core count fixed, strictly increasing GPU VRAM
gives non-decreasing detector and recognizer batch sizes. -/
theorem calc_batches_monotone :
    ∀ h₁ h₂ : HwConfig,
      h₁.ram_gb = h₂.ram_gb →
      h₁.cpu_cores = h₂.cpu_cores →
      h₁.gpu_vram_gb < h₂.gpu_vram_gb →
      (calculate_optimal_params h₁).det_batch ≤ (calculate_optimal_params h₂).det_batch ∧
        (calculate_optimal_params h₁).rec_batch ≤ (calculate_optimal_params h₂).rec_batch := by
  intro h₁ h₂ _ _ hlt
  have e₁ := calc_batches_eq h₁
  have e₂ := calc_batches_eq h₂
  have p₁ : (calculate_optimal_params h₁).det_batch =
      (if h₁.gpu_vram_gb ≤ 4 then ((1 : ℕ), (8 : ℕ))
       else if h₁.gpu_vram_gb ≤ 6 then (2, 16)
       else if h₁.gpu_vram_gb ≤ 8 then (3, 24)
       else (4, 32)).1 := by rw [← e₁]
  have q₁ : (calculate_optimal_params h₁).rec_batch =
      (if h₁.gpu_vram_gb ≤ 4 then ((1 : ℕ), (8 : ℕ))
       else if h₁.gpu_vram_gb ≤ 6 then (2, 16)
       else if h₁.gpu_vram_gb ≤ 8 then (3, 24)
       else (4, 32)).2 := by rw [← e₁]
  have p₂ : (calculate_optimal_params h₂).det_batch =
      (if h₂.gpu_vram_gb ≤ 4 then ((1 : ℕ), (8 : ℕ))
       else if h₂.gpu_vram_gb ≤ 6 then (2, 16)
       else if h₂.gpu_vram_gb ≤ 8 then (3, 24)
       else (4, 32)).1 := by rw [← e₂]
  have q₂ : (calculate_optimal_params h₂).rec_batch =
      (if h₂.gpu_vram_gb ≤ 4 then ((1 : ℕ), (8 : ℕ))
       else if h₂.gpu_vram_gb ≤ 6 then (2, 16)
       else if h₂.gpu_vram_gb ≤ 8 then (3, 24)
       else (4, 32)).2 := by rw [← e₂]
  rw [p₁, q₁, p₂, q₂]
  split_ifs <;> simp_all <;> linarith

/-- C7 witness: 4GB vs 8GB VRAM with 24GB RAM and 8 cores; the batch
pair goes from (1, 8) to (3, 24), non-decreasing in both components. -/
theorem calc_batches_monotone_witness :
    (calculate_optimal_params ⟨4, 24, 8⟩).det_batch ≤
        (calculate_optimal_params ⟨8, 24, 8⟩).det_batch ∧
      (calculate_optimal_params ⟨4, 24, 8⟩).rec_batch ≤
        (calculate_optimal_params ⟨8, 24, 8⟩).rec_batch :=
  calc_batches_monotone ⟨4, 24, 8⟩ ⟨8, 24, 8⟩ rfl rfl (by norm_num)

/- ------------------------------------------------------------------
   C6 theorems.
   ------------------------------------------------------------------ -/

/-- C6 counterexample: with a healthy GPU probe (6144 MB) and CPU probe,
a RAM-probe failure that is not an `ImportError` escapes
`detect_hardware` (only `ImportError` is caught on that probe), so
"`detect` never raises, for any outcome of the three probes" is false. -/
theorem detect_hardware_raises_counterexample :
    detect_hardware (GpuProbe.ok 6144) RamProbe.queryError (some 8) =
      Except.error () := by
  rfl

/-- C6 (amended): `detect_hardware` never raises as long as any RAM-probe
failure is psutil being unavailable (`ImportError`); the GPU fallback 0
applies on any GPU-probe failure, the RAM fallback is 8, the CPU count is
the OS-reported value or 4, and each component depends only on its own
probe.  A non-ImportError failure of the RAM query itself propagates. -/
theorem detect_hardware_fallbacks :
    ∀ (g : GpuProbe) (v : ℚ) (c : Option ℕ),
      detect_hardware g (RamProbe.ok v) c = .ok ⟨gpuFallbackGb g, v, cpuCountOr4 c⟩ ∧
        detect_hardware g RamProbe.importError c = .ok ⟨gpuFallbackGb g, 8, cpuCountOr4 c⟩ ∧
        detect_hardware GpuProbe.err (RamProbe.ok v) c =
          .ok ⟨0, v, cpuCountOr4 c⟩ ∧
        detect_hardware g (RamProbe.ok v) none = .ok ⟨gpuFallbackGb g, v, 4⟩ := by
  intro g v c
  cases g <;> exact ⟨rfl, rfl, rfl, rfl⟩

/- ------------------------------------------------------------------
   HybridPipelineManager: `acquire` from the hybrid-pipeline plan
   (`backend/src/services/models/hybrid_pipeline.py`).
   ------------------------------------------------------------------ -/

/-- Default of `EXAMPAPER_CPU_OCR_SLOTS` (CPU semaphore permit count). -/
def defaultCpuSlots : ℕ := 2

/-- Default of `EXAMPAPER_CPU_FALLBACK_TIMEOUT` in seconds. -/
def defaultCpuFallbackTimeout : ℚ := 0.1

/-- The device kind yielded by `acquire` (the `"gpu"` / `"cpu"` tag). -/
inductive Device where
  | gpu
  | cpu
deriving DecidableEq

/-- Which of the three routing tiers of `acquire` served the request. -/
inductive Tier where
  | nonBlockingGpu
  | timedCpu
  | blockingGpu
deriving DecidableEq

/-- Primitive semaphore events performed by one `acquire` call. -/
inductive LockEv where
  | acqGpu
  | relGpu
  | acqCpu
  | relCpu
deriving DecidableEq

/-- Mutable state of the `HybridPipelineManager` singleton visible to
`acquire`: the semaphores' available permit counts and whether the lazy
CPU pipeline has been constructed (`_cpu_pipeline is not None`). -/
structure MgrState where
  gpuAvail : ℕ
  cpuAvail : ℕ
  cpuBuilt : Bool
deriving DecidableEq

/-- Embedding of `_ensure_cpu_pipeline`: construct the CPU pipeline only if it has not
been built yet. -/
def ensure_cpu_pipeline (s : MgrState) : MgrState :=
  if s.cpuBuilt then s else { s with cpuBuilt := true }

/-- Semantics of `try: yield ... finally: sem.release()`: the body's outcome is
propagated unchanged, and the release event is emitted on both the
normal and the exceptional exit. -/
def tryFinallyRelease {ε α : Type} (act : Except ε α) (rel : LockEv) :
    Except ε α × List LockEv :=
  match act with
  | .ok a => (.ok a, [rel])
  | .error e => (.error e, [rel])

/-- Everything one `acquire` call returns to its caller plus the
instrumentation needed for the claims: the with-body's outcome, the
yielded device tag, the tier taken, the semaphore event trace of the
call, and the manager state on return. -/
structure AcquireResult (ε α : Type) where
  result : Except ε α
  device : Device
  tier : Tier
  trace : List LockEv
  final : MgrState

/-- Embedding of `HybridPipelineManager.acquire`.

* Tier 1: `self._gpu_sem.acquire(blocking=False)` succeeds exactly when a
  GPU permit is available; the GPU pipeline is yielded and the permit
  released in a `finally`.
* Tier 2: `self._cpu_sem.acquire(blocking=True, timeout=timeout)`
  succeeds when a CPU permit is available immediately, or — when none is —
  when some concurrent holder releases one within the timeout; the latter
  is modelled by the oracle `cpuWaitOk`.  On success the CPU pipeline is
  lazily constructed inside the `try`, and released in a `finally`.
* Tier 3: `self._gpu_sem.acquire(blocking=True)` — an unbounded wait that
  eventually succeeds; the GPU pipeline is yielded.

`body` is the with-block of the caller, given the yielded device; an
`Except.error` models the body raising. -/
def acquire {ε α : Type} (s : MgrState) (cpuWaitOk : Bool)
    (body : Device → Except ε α) : AcquireResult ε α :=
  if 0 < s.gpuAvail then
    let (r, fin) := tryFinallyRelease (body Device.gpu) LockEv.relGpu
    ⟨r, Device.gpu, Tier.nonBlockingGpu, LockEv.acqGpu :: fin, s⟩
  else if 0 < s.cpuAvail || cpuWaitOk then
    let s' := ensure_cpu_pipeline s
    let (r, fin) := tryFinallyRelease (body Device.cpu) LockEv.relCpu
    ⟨r, Device.cpu, Tier.timedCpu, LockEv.acqCpu :: fin, s'⟩
  else
    let (r, fin) := tryFinallyRelease (body Device.gpu) LockEv.relGpu
    ⟨r, Device.gpu, Tier.blockingGpu, LockEv.acqGpu :: fin, s⟩

/- ------------------------------------------------------------------
   C1: three-tier routing.
   ------------------------------------------------------------------ -/

/-- C1: `acquire` routes along exactly three tiers.  With a GPU permit
free, the non-blocking GPU path serves the call; with the GPU busy and a
CPU permit free (or freed within the timeout), the timed CPU path serves
it and the CPU pipeline is built if absent; with both busy past the
timeout, the call blocks on the GPU and is still served — in every case
the caller receives its body's outcome, so contention alone never fails
a request.  The permit count and timeout defaults are 2 and 0.1s. -/
theorem acquire_three_tier_routing :
    ∀ {ε α : Type} (s : MgrState) (o : Bool) (body : Device → Except ε α),
      (0 < s.gpuAvail →
        (acquire s o body).device = Device.gpu ∧
          (acquire s o body).tier = Tier.nonBlockingGpu ∧
          (acquire s o body).final = s) ∧
      (s.gpuAvail = 0 → (0 < s.cpuAvail ∨ o = true) →
        (acquire s o body).device = Device.cpu ∧
          (acquire s o body).tier = Tier.timedCpu ∧
          (acquire s o body).final.cpuBuilt = true) ∧
      (s.gpuAvail = 0 → s.cpuAvail = 0 → o = false →
        (acquire s o body).device = Device.gpu ∧
          (acquire s o body).tier = Tier.blockingGpu) ∧
      (acquire s o body).result = body (acquire s o body).device ∧
      defaultCpuSlots = 2 ∧ defaultCpuFallbackTimeout = 1 / 10 := by
  intro ε α s o body
  have hnum : defaultCpuSlots = 2 ∧ defaultCpuFallbackTimeout = 1 / 10 := by
    constructor
    · rfl
    · norm_num [defaultCpuFallbackTimeout]
  refine ⟨?_, ?_, ?_, ?_, hnum.1, hnum.2⟩
  · intro hg
    simp only [acquire, if_pos hg]
    rcases h : body Device.gpu with a | e <;>
      simp [tryFinallyRelease, h]
  · intro hg hc
    have hng : ¬ 0 < s.gpuAvail := by omega
    have hcc : (0 < s.cpuAvail || o) = true := by
      rcases hc with h | h
      · simp [h]
      · simp [h]
    simp only [acquire, if_neg hng, if_pos hcc]
    rcases h : body Device.cpu with a | e <;>
      simp [tryFinallyRelease, h, ensure_cpu_pipeline] <;>
      by_cases hb : s.cpuBuilt <;> simp [hb]
  · intro hg hc ho
    have hng : ¬ 0 < s.gpuAvail := by omega
    have hcc : ¬ (0 < s.cpuAvail || o) = true := by
      simp [hc, ho]
    simp only [acquire, if_neg hng, if_neg hcc]
    rcases h : body Device.gpu with a | e <;>
      simp [tryFinallyRelease, h]
  · by_cases hg : 0 < s.gpuAvail
    · simp only [acquire, if_pos hg]
      rcases h : body Device.gpu with a | e <;>
        simp [tryFinallyRelease, h]
    · by_cases hcc : (0 < s.cpuAvail || o) = true
      · simp only [acquire, if_neg hg, if_pos hcc]
        rcases h : body Device.cpu with a | e <;>
          simp [tryFinallyRelease, h]
      · simp only [acquire, if_neg hg, if_neg hcc]
        rcases h : body Device.gpu with a | e <;>
          simp [tryFinallyRelease, h]

/-- C1 witness: at a state with the GPU busy, no CPU permit and no permit
arriving within the timeout, a request is still served — on the GPU via
the blocking tier — and the body's outcome is returned. -/
theorem acquire_three_tier_routing_witness :
    (acquire (ε := Unit) (α := ℕ) ⟨0, 0, false⟩ false (fun _ => .ok 7)).device =
        Device.gpu ∧
      (acquire (ε := Unit) (α := ℕ) ⟨0, 0, false⟩ false (fun _ => .ok 7)).tier =
        Tier.blockingGpu := by
  have h := acquire_three_tier_routing (ε := Unit) (α := ℕ)
    ⟨0, 0, false⟩ false (fun _ => .ok 7)
  exact h.2.2.1 rfl rfl rfl

/- ------------------------------------------------------------------
   C2: permit accounting of one `acquire` call.
   ------------------------------------------------------------------ -/

/-- Taking a prefix of a two-event trace yields one of three lists. -/
theorem take_pair_cases (a b : LockEv) (n : ℕ) :
    [a, b].take n = [] ∨ [a, b].take n = [a] ∨ [a, b].take n = [a, b] := by
  match n with
  | 0 => exact Or.inl rfl
  | 1 => exact Or.inr (Or.inl rfl)
  | (k + 2) => exact Or.inr (Or.inr (by simp))

/-- Prefix counts of the GPU-path trace: releases never precede their
acquisition, on either semaphore. -/
theorem gpu_trace_take_ok (n : ℕ) :
    (([LockEv.acqGpu, LockEv.relGpu].take n).count LockEv.relGpu ≤
        ([LockEv.acqGpu, LockEv.relGpu].take n).count LockEv.acqGpu) ∧
      (([LockEv.acqGpu, LockEv.relGpu].take n).count LockEv.relCpu ≤
        ([LockEv.acqGpu, LockEv.relGpu].take n).count LockEv.acqCpu) := by
  rcases take_pair_cases LockEv.acqGpu LockEv.relGpu n with h | h | h <;>
    rw [h] <;> exact ⟨by decide, by decide⟩

/-- Prefix counts of the CPU-path trace: releases never precede their
acquisition, on either semaphore. -/
theorem cpu_trace_take_ok (n : ℕ) :
    (([LockEv.acqCpu, LockEv.relCpu].take n).count LockEv.relGpu ≤
        ([LockEv.acqCpu, LockEv.relCpu].take n).count LockEv.acqGpu) ∧
      (([LockEv.acqCpu, LockEv.relCpu].take n).count LockEv.relCpu ≤
        ([LockEv.acqCpu, LockEv.relCpu].take n).count LockEv.acqCpu) := by
  rcases take_pair_cases LockEv.acqCpu LockEv.relCpu n with h | h | h <;>
    rw [h] <;> exact ⟨by decide, by decide⟩

/-- One `acquire` call emits either the GPU acquire/release pair or the
CPU acquire/release pair, whatever the body does. -/
theorem acquire_trace_cases {ε α : Type} (s : MgrState) (o : Bool)
    (body : Device → Except ε α) :
    (acquire s o body).trace = [LockEv.acqGpu, LockEv.relGpu] ∨
      (acquire s o body).trace = [LockEv.acqCpu, LockEv.relCpu] := by
  by_cases hg : 0 < s.gpuAvail
  · left
    simp only [acquire, if_pos hg]
    rcases h : body Device.gpu with a | e <;> simp [tryFinallyRelease, h]
  · by_cases hc : (0 < s.cpuAvail || o) = true
    · right
      simp only [acquire, if_neg hg, if_pos hc]
      rcases h : body Device.cpu with a | e <;> simp [tryFinallyRelease, h]
    · left
      simp only [acquire, if_neg hg, if_neg hc]
      rcases h : body Device.gpu with a | e <;> simp [tryFinallyRelease, h]

/-- The caller always receives exactly the body's outcome: an exception
raised in the scoped body propagates (after the `finally` release), and a
normal result is returned unchanged. -/
theorem acquire_result_propagates {ε α : Type} (s : MgrState) (o : Bool)
    (body : Device → Except ε α) :
    (acquire s o body).result = body (acquire s o body).device := by
  by_cases hg : 0 < s.gpuAvail
  · simp only [acquire, if_pos hg]
    rcases h : body Device.gpu with a | e <;> simp [tryFinallyRelease, h]
  · by_cases hc : (0 < s.cpuAvail || o) = true
    · simp only [acquire, if_neg hg, if_pos hc]
      rcases h : body Device.cpu with a | e <;> simp [tryFinallyRelease, h]
    · simp only [acquire, if_neg hg, if_neg hc]
      rcases h : body Device.gpu with a | e <;> simp [tryFinallyRelease, h]

/-- C2: every permit an `acquire` call takes — on the non-blocking GPU
path, the timed CPU path, or the blocking GPU path — is matched by a
release before control returns (equal acquire/release counts), a release
never precedes its acquisition (prefix counts), the call holds at most
one permit of each semaphore (≤ the configured maximum, 1 for GPU), and
the body's outcome — exception included — is propagated to the caller
after the release. -/
theorem acquire_releases_all_permits :
    ∀ {ε α : Type} (s : MgrState) (o : Bool) (body : Device → Except ε α),
      ((acquire s o body).trace.count LockEv.relGpu =
          (acquire s o body).trace.count LockEv.acqGpu) ∧
        ((acquire s o body).trace.count LockEv.relCpu =
          (acquire s o body).trace.count LockEv.acqCpu) ∧
        (acquire s o body).trace.count LockEv.acqGpu ≤ 1 ∧
        (acquire s o body).trace.count LockEv.acqCpu ≤ 1 ∧
        (∀ n : ℕ,
          ((acquire s o body).trace.take n).count LockEv.relGpu ≤
              ((acquire s o body).trace.take n).count LockEv.acqGpu ∧
            ((acquire s o body).trace.take n).count LockEv.relCpu ≤
              ((acquire s o body).trace.take n).count LockEv.acqCpu) ∧
        (acquire s o body).result = body (acquire s o body).device := by
  intro ε α s o body
  rcases acquire_trace_cases s o body with h | h <;>
    exact ⟨by rw [h]; decide, by rw [h]; decide, by rw [h]; decide,
      by rw [h]; decide,
      fun n => by rw [h]; first
        | exact gpu_trace_take_ok n
        | exact cpu_trace_take_ok n,
      acquire_result_propagates s o body⟩

/-- C2 witness: on a state with one free GPU permit and a body that
raises, the GPU permit is acquired and released exactly once and the
exception is propagated. -/
theorem acquire_releases_all_permits_witness :
    ((acquire (ε := Unit) (α := ℕ) ⟨1, 2, false⟩ false
          (fun _ => .error ())).trace.count LockEv.relGpu =
        (acquire (ε := Unit) (α := ℕ) ⟨1, 2, false⟩ false
          (fun _ => .error ())).trace.count LockEv.acqGpu) ∧
      (acquire (ε := Unit) (α := ℕ) ⟨1, 2, false⟩ false
          (fun _ => .error ())).result = .error () := by
  have h := acquire_releases_all_permits (ε := Unit) (α := ℕ)
    ⟨1, 2, false⟩ false (fun _ => .error ())
  exact ⟨h.1, by rw [h.2.2.2.2.2]⟩

/- ------------------------------------------------------------------
   C3: system-wide mutual exclusion from the two semaphores
   (`HybridPipelineManager.__init__`: `Semaphore(1)` for the GPU,
   `Semaphore(EXAMPAPER_CPU_OCR_SLOTS)` for the CPU).
   ------------------------------------------------------------------ -/

/-- Global state of the two semaphores under concurrent `acquire` calls:
available permits and the number of threads currently inside an
inference call against each resource. -/
structure SemSysState where
  gpuAvail : ℕ
  gpuHolders : ℕ
  cpuAvail : ℕ
  cpuHolders : ℕ
deriving DecidableEq

/-- Initial state from `__init__`: `Semaphore(1)` and `Semaphore(slots)`,
nobody inside. -/
def initSys (cpuSlots : ℕ) : SemSysState := ⟨1, 0, cpuSlots, 0⟩

/-- One semaphore event by some thread, labelled like the events of an
`acquire` trace: an acquisition requires a free permit; a release is
performed (in a `finally`) only by a thread currently holding one. -/
inductive SemStep : LockEv → SemSysState → SemSysState → Prop where
  | acqGpu {s : SemSysState} : 0 < s.gpuAvail →
      SemStep LockEv.acqGpu s ⟨s.gpuAvail - 1, s.gpuHolders + 1, s.cpuAvail, s.cpuHolders⟩
  | relGpu {s : SemSysState} : 0 < s.gpuHolders →
      SemStep LockEv.relGpu s ⟨s.gpuAvail + 1, s.gpuHolders - 1, s.cpuAvail, s.cpuHolders⟩
  | acqCpu {s : SemSysState} : 0 < s.cpuAvail →
      SemStep LockEv.acqCpu s ⟨s.gpuAvail, s.gpuHolders, s.cpuAvail - 1, s.cpuHolders + 1⟩
  | relCpu {s : SemSysState} : 0 < s.cpuHolders →
      SemStep LockEv.relCpu s ⟨s.gpuAvail, s.gpuHolders, s.cpuAvail + 1, s.cpuHolders - 1⟩

/-- States reachable from `initSys cpuSlots` by any interleaving of
semaphore events of concurrent `acquire` calls. -/
inductive ReachableSys (cpuSlots : ℕ) : SemSysState → Prop where
  | init : ReachableSys cpuSlots (initSys cpuSlots)
  | step {s t : SemSysState} {e : LockEv} :
      ReachableSys cpuSlots s → SemStep e s t → ReachableSys cpuSlots t

/-- Permit conservation: in every reachable state each semaphore's free
permits plus its holders equal its configured permit count. -/
theorem reachable_conservation {cpuSlots : ℕ} {s : SemSysState}
    (h : ReachableSys cpuSlots s) :
    s.gpuAvail + s.gpuHolders = 1 ∧ s.cpuAvail + s.cpuHolders = cpuSlots := by
  induction h with
  | init => exact ⟨rfl, rfl⟩
  | step _ hstep ih =>
    cases hstep with
    | acqGpu hp => exact ⟨by simp; omega, by simpa using ih.2⟩
    | relGpu hp => exact ⟨by simp; omega, by simpa using ih.2⟩
    | acqCpu hp => exact ⟨by simpa using ih.1, by simp; omega⟩
    | relCpu hp => exact ⟨by simpa using ih.1, by simp; omega⟩

/-- C3: under any concurrent interleaving, at most one thread is inside
an inference call against the GPU resource, and at most `cpuSlots`
(default 2) threads are inside calls against the CPU resource. -/
theorem gpu_mutual_exclusion :
    ∀ (cpuSlots : ℕ) (s : SemSysState), ReachableSys cpuSlots s →
      s.gpuHolders ≤ 1 ∧ s.cpuHolders ≤ cpuSlots := by
  intro cpuSlots s h
  have hc := reachable_conservation h
  omega

/-- C3 witness: a state reached by two concurrent acquisitions (one GPU,
one CPU) with the default 2 CPU slots still satisfies both bounds. -/
theorem gpu_mutual_exclusion_witness :
    (⟨0, 1, 1, 1⟩ : SemSysState).gpuHolders ≤ 1 ∧
      (⟨0, 1, 1, 1⟩ : SemSysState).cpuHolders ≤ defaultCpuSlots := by
  have h1 : ReachableSys defaultCpuSlots (initSys defaultCpuSlots) :=
    ReachableSys.init
  have h2 : ReachableSys defaultCpuSlots ⟨0, 1, 2, 0⟩ :=
    h1.step (SemStep.acqGpu (by decide))
  have h3 : ReachableSys defaultCpuSlots ⟨0, 1, 1, 1⟩ :=
    h2.step (SemStep.acqCpu (by decide))
  exact gpu_mutual_exclusion defaultCpuSlots ⟨0, 1, 1, 1⟩ h3

/- ------------------------------------------------------------------
   Frontend task store (`useTaskStore.ts`): step records, the
   `canStartStep` gate and the `restartFromStep` reset.
   ------------------------------------------------------------------ -/

/-- Step statuses (`StepStatus`) from the frontend types. -/
inductive StepStatus where
  | pending
  | running
  | completed
  | failed
  | skipped
deriving DecidableEq

/-- A `Step` record of the store (the fields read or written by
`canStartStep` and `restartFromStep`). -/
structure UiStep where
  index : ℕ
  status : StepStatus
  error : Option String
  artifact_count : ℕ
  progress : Option ℚ
  progress_text : Option String
deriving DecidableEq

/-- Task modes (`TaskMode`): automatic run-to-end vs manual step-by-step. -/
inductive TaskMode where
  | auto
  | manual
deriving DecidableEq

/-- The store's overall `status` ref. -/
inductive UiTaskStatus where
  | idle
  | uploading
  | processing
  | paused
  | completed
  | error
deriving DecidableEq

/-- The slice of the pinia store state the gate reads. -/
structure TaskStoreState where
  status : UiTaskStatus
  mode : TaskMode
  steps : List UiStep
deriving DecidableEq

/-- Embedding of `isBusy`: `['uploading', 'processing'].includes(status.value)`. -/
def isBusy (st : TaskStoreState) : Bool :=
  st.status == UiTaskStatus.uploading || st.status == UiTaskStatus.processing

/-- Embedding of `canStartStep(step)` from the task store.  `none` models the
TypeError JavaScript would raise when `steps[step.index - 1]` is
undefined (never hit on the store's 5-step array); `some b` is the
returned boolean.  Note the code checks only the immediate predecessor,
and only for the `'completed'` status. -/
def canStartStep (st : TaskStoreState) (step : UiStep) : Option Bool :=
  if isBusy st then some false
  else if step.status ≠ StepStatus.pending then some false
  else if st.steps.any (fun s => s.status == StepStatus.running) then some false
  else if st.mode ≠ TaskMode.manual ∧ 0 < step.index then
    match st.steps.get? (step.index - 1) with
    | none => none
    | some prev => some (prev.status == StepStatus.completed)
  else some true

/-- Shorthand for a step record with empty error/progress fields. -/
def mkStep (i : ℕ) (s : StepStatus) (ac : ℕ) : UiStep :=
  ⟨i, s, none, ac, none, none⟩

/-- C8 counterexample store: automatic mode, not busy, step 0 `failed`,
step 1 `completed`, steps 2–4 `pending`. -/
def storeStepZeroFailed : TaskStoreState :=
  ⟨UiTaskStatus.paused, TaskMode.auto,
    [mkStep 0 StepStatus.failed 0, mkStep 1 StepStatus.completed 3,
      mkStep 2 StepStatus.pending 0, mkStep 3 StepStatus.pending 0,
      mkStep 4 StepStatus.pending 0]⟩

/-- C8: the claim "a step transitions to running only when **all** prior
steps are completed or skipped (automatic mode)" is false on
`canStartStep`: in automatic mode it lets step 2 start while step 0 is
`failed`, because only the immediate predecessor (step 1, `completed`)
is examined. -/
theorem canStartStep_prior_failed_counterexample :
    canStartStep storeStepZeroFailed (mkStep 2 StepStatus.pending 0) = some true ∧
      storeStepZeroFailed.mode = TaskMode.auto ∧
      storeStepZeroFailed.steps.get? 0 = some (mkStep 0 StepStatus.failed 0) := by
  refine ⟨?_, rfl, rfl⟩
  decide

/-- C8 (amended): `canStartStep` allows starting a step exactly when the
store is not busy, the step is `pending`, no step is `running`, and — in
automatic mode for a step of positive index — its immediate predecessor
is `completed` (a `skipped` or `failed` predecessor blocks, and steps
before the predecessor are not examined); in manual mode the predecessor
condition is dropped, so a step may start independently of predecessor
completion. -/
theorem canStartStep_gate :
    ∀ (st : TaskStoreState) (step : UiStep) (prev : UiStep),
      st.steps.get? (step.index - 1) = some prev →
      (canStartStep st step = some true ↔
        (isBusy st = false ∧ step.status = StepStatus.pending ∧
          st.steps.any (fun s => s.status == StepStatus.running) = false ∧
          (st.mode = TaskMode.manual ∨ step.index = 0 ∨
            prev.status = StepStatus.completed))) := by
  intro st step prev hprev
  unfold canStartStep
  by_cases hb : isBusy st
  · simp [hb]
  · by_cases hp : step.status = StepStatus.pending
    · by_cases hr : st.steps.any (fun s => s.status == StepStatus.running) = true
      · simp [hb, hp, hr]
      · by_cases hm : st.mode ≠ TaskMode.manual ∧ 0 < step.index
        · rw [if_neg (by simp [hb]), if_neg (by simp [hp]), if_neg hr,
            if_pos hm, hprev]
          simp only [Option.some_inj, beq_iff_eq, eq_comm (a := true)]
          constructor
          · intro h
            exact ⟨by simp [hb], hp, by simpa using hr,
              Or.inr (Or.inr (by simpa using h))⟩
          · rintro ⟨-, -, -, h | h | h⟩
            · exact absurd h hm.1
            · omega
            · simp [h]
        · rw [if_neg (by simp [hb]), if_neg (by simp [hp]), if_neg hr,
            if_neg hm]
          rcases not_and_or.mp hm with h | h
          · simp only [ne_eq, not_not] at h
            simp [hb, hp, hr, h]
          · have hz : step.index = 0 := by omega
            simp [hb, hp, hr, hz]
    · simp [hp]

/-- C8 witness: in manual mode with an idle store, step 2 may start even
though its predecessor step 1 is still `pending`. -/
theorem canStartStep_gate_witness :
    canStartStep
        ⟨UiTaskStatus.paused, TaskMode.manual,
          [mkStep 0 StepStatus.completed 2, mkStep 1 StepStatus.pending 0,
            mkStep 2 StepStatus.pending 0]⟩
        (mkStep 2 StepStatus.pending 0) = some true := by
  exact (canStartStep_gate
      ⟨UiTaskStatus.paused, TaskMode.manual,
        [mkStep 0 StepStatus.completed 2, mkStep 1 StepStatus.pending 0,
          mkStep 2 StepStatus.pending 0]⟩
      (mkStep 2 StepStatus.pending 0) (mkStep 1 StepStatus.pending 0)
      (by decide)).mpr (by refine ⟨by decide, rfl, by decide, Or.inl rfl⟩)

/- ------------------------------------------------------------------
   C9: `restartFromStep` — how the store applies a restart response.
   ------------------------------------------------------------------ -/

/-- One entry of `response.data.steps` in the restart response; the
client reads only its `status` field (all other local fields are
cleared unconditionally). -/
structure ServerStep where
  status : StepStatus
deriving DecidableEq

/-- The `response.data.steps.forEach((s, idx) => ...)` body of
`restartFromStep`: for every index covered by the response (and present
in the local array), the local step takes the server's `status` and has
`error`, `artifact_count`, `progress` and `progress_text` cleared;
local steps beyond the response are untouched. -/
def applyRestartSteps : List UiStep → List ServerStep → List UiStep
  | [], _ => []
  | olds, [] => olds
  | old :: olds, s :: ss =>
    { old with
      status := s.status, error := none, artifact_count := 0,
      progress := none, progress_text := none } :: applyRestartSteps olds ss

/-- Embedding of `restartFromStep(stepIndex)`: applies the server's step list to the
local store and, in manual mode only, immediately starts exactly the
restarted step (`startStep(stepIndex)`); in automatic mode no step is
started by this call.  Returns the updated step list and the index of
the step started, if any. -/
def restartFromStep (mode : TaskMode) (steps : List UiStep)
    (resp : List ServerStep) (stepIndex : ℕ) : List UiStep × Option ℕ :=
  (applyRestartSteps steps resp,
    if mode = TaskMode.manual then some stepIndex else none)

/-- C9 counterexample data: a 5-step task, steps 0 and 1 completed with
recorded artifacts, step 2 failed; server response for a restart from
step 2 echoing the earlier statuses and resetting step 2 onward. -/
def stepsBeforeRestart : List UiStep :=
  [mkStep 0 StepStatus.completed 3, mkStep 1 StepStatus.completed 5,
    ⟨2, StepStatus.failed, some "boom", 1, none, none⟩,
    mkStep 3 StepStatus.pending 0, mkStep 4 StepStatus.pending 0]

/-- Server echo for a restart from step 2. -/
def respRestartFrom2 : List ServerStep :=
  [⟨StepStatus.completed⟩, ⟨StepStatus.completed⟩, ⟨StepStatus.pending⟩,
    ⟨StepStatus.pending⟩, ⟨StepStatus.pending⟩]

/-- C9: the claim "restarting from step 2 leaves steps 0 and 1's recorded
status and artifacts untouched" is false on `restartFromStep`: the store
zeroes the recorded `artifact_count` (and clears `error`/progress) of
*every* step in the response, so step 0's recorded artifact count drops
from 3 to 0. -/
theorem restartFromStep_clears_counterexample :
    (restartFromStep TaskMode.auto stepsBeforeRestart respRestartFrom2 2).1.get? 0 =
        some (mkStep 0 StepStatus.completed 0) ∧
      stepsBeforeRestart.get? 0 = some (mkStep 0 StepStatus.completed 3) := by
  exact ⟨by decide, by decide⟩

/-- C9 (amended): `restartFromStep` takes each step's status from the
server response and unconditionally clears the recorded `error`,
`artifact_count` and `progress` fields of every step the response
covers, earlier completed steps included; steps beyond the response are
untouched, so earlier steps keep their status exactly when the server
echoes it, and the call re-executes no earlier step — the only step it
may start is the restarted one, and only in manual mode. -/
theorem restartFromStep_resets :
    ∀ (mode : TaskMode) (steps : List UiStep) (resp : List ServerStep)
      (k i : ℕ) (old : UiStep),
      steps.get? i = some old →
      ((∀ s : ServerStep, resp.get? i = some s →
          (restartFromStep mode steps resp k).1.get? i =
            some { old with
              status := s.status, error := none, artifact_count := 0,
              progress := none, progress_text := none }) ∧
        (resp.get? i = none →
          (restartFromStep mode steps resp k).1.get? i = some old) ∧
        (∀ j : ℕ, (restartFromStep mode steps resp k).2 = some j →
          j = k ∧ mode = TaskMode.manual)) := by
  intro mode steps resp k i old hold
  have hmain : ∀ (steps : List UiStep) (resp : List ServerStep) (i : ℕ)
      (old : UiStep), steps.get? i = some old →
      (∀ s : ServerStep, resp.get? i = some s →
        (applyRestartSteps steps resp).get? i =
          some { old with
            status := s.status, error := none, artifact_count := 0,
            progress := none, progress_text := none }) ∧
      (resp.get? i = none → (applyRestartSteps steps resp).get? i = some old) := by
    intro steps
    induction steps with
    | nil => intro resp i old hold; simp at hold
    | cons hd tl ih =>
      intro resp i old hold
      cases resp with
      | nil =>
        refine ⟨fun s hs => by simp at hs, fun _ => ?_⟩
        simpa [applyRestartSteps] using hold
      | cons r rs =>
        cases i with
        | zero =>
          simp only [List.get?] at hold
          refine ⟨fun s hs => ?_, fun hn => by simp at hn⟩
          simp only [List.get?] at hs
          simp [applyRestartSteps, ← Option.some_inj.mp hold,
            Option.some_inj.mp hs]
        | succ n =>
          simp only [List.get?] at hold
          have := ih rs n old hold
          refine ⟨fun s hs => ?_, fun hn => ?_⟩
          · simp only [List.get?] at hs
            simpa [applyRestartSteps] using this.1 s hs
          · simp only [List.get?] at hn
            simpa [applyRestartSteps] using this.2 hn
  have h := hmain steps resp i old hold
  refine ⟨h.1, h.2, ?_⟩
  intro j hj
  unfold restartFromStep at hj
  by_cases hm : mode = TaskMode.manual
  · simp [hm] at hj
    exact ⟨hj.symm, hm⟩
  · simp [hm] at hj

/-- C9 witness: on the concrete restart-from-step-2 data, step 2's record
becomes `pending` with error and artifact count cleared, and in manual
mode only step 2 is started. -/
theorem restartFromStep_resets_witness :
    (restartFromStep TaskMode.manual stepsBeforeRestart respRestartFrom2 2).1.get? 2 =
      some (mkStep 2 StepStatus.pending 0) := by
  have h := restartFromStep_resets TaskMode.manual stepsBeforeRestart
    respRestartFrom2 2 2 ⟨2, StepStatus.failed, some "boom", 1, none, none⟩
    (by decide)
  simpa [mkStep] using h.1 ⟨StepStatus.pending⟩ (by decide)

/- ------------------------------------------------------------------
   C4: PageWorkerPool order preservation (spec-modelled: the backend
   `parallel_extraction.py` is not among the available source files).
   ------------------------------------------------------------------ -/

/-- Modelled from the spec: the repository's PageWorkerPool
(`backend/src/services/parallel_extraction.py`, absent from the
available sources).  Each page is tagged with its original index;
consumer threads complete the tagged units in an arbitrary completion
order (`order`, a permutation of the indices), producing `(index,
result)` pairs; before returning, results are re-ordered to the input
sequence by looking each original index up in the completed set. -/
def process_pages {α β : Type} (f : α → β) (order : List ℕ)
    (pages : List α) : List β :=
  let completed :=
    order.filterMap (fun i => (pages.get? i).map (fun a => (i, f a)))
  (List.range pages.length).filterMap
    (fun j => (completed.find? (fun p => p.1 == j)).map Prod.snd)

/-- Looking up index `j` among the completed units finds `(j, f a)`
whenever page `j` exists and some consumer completed it. -/
theorem find_completed {α β : Type} (f : α → β) (pages : List α) (j : ℕ)
    (a : α) (ha : pages.get? j = some a) :
    ∀ order : List ℕ, j ∈ order →
      ((order.filterMap
          (fun i => (pages.get? i).map (fun b => (i, f b)))).find?
        (fun p => p.1 == j)) = some (j, f a) := by
  intro order
  induction order with
  | nil => intro hj; simp at hj
  | cons i rest ih =>
    intro hj
    by_cases hij : i = j
    · subst hij
      rw [List.filterMap_cons, ha]
      simp [List.find?]
    · have hjr : j ∈ rest := by
        rcases List.mem_cons.mp hj with h | h
        · exact absurd h.symm hij
        · exact h
      rcases h : pages.get? i with _ | b
      · rw [List.filterMap_cons, h]
        exact ih hjr
      · rw [List.filterMap_cons, h]
        simp only [Option.map_some']
        rw [List.find?_cons_of_neg _ (by simp [hij])]
        exact ih hjr

/-- Collecting over `range pages.length` with a lookup that succeeds on
every valid index is exactly `pages.map f`. -/
theorem filterMap_range_all_some {α β : Type} (f : α → β) :
    ∀ (pages : List α) (g : ℕ → Option β),
      (∀ (j : ℕ) (a : α), pages.get? j = some a → g j = some (f a)) →
      (List.range pages.length).filterMap g = pages.map f := by
  intro pages
  induction pages with
  | nil => intro g _; simp
  | cons hd tl ih =>
    intro g hg
    rw [List.length_cons, List.range_succ_eq_map, List.filterMap_cons,
      hg 0 hd rfl, List.filterMap_map]
    rw [ih (g ∘ Nat.succ) (fun j a haj => hg (j + 1) a (by simpa using haj))]
    rfl

/-- C4: for every input page sequence and every completion order of the
concurrent consumers (any permutation of the page indices), the pool
returns exactly one result per page, in the order of submission. -/
theorem process_pages_preserves_order :
    ∀ {α β : Type} (f : α → β) (pages : List α) (order : List ℕ),
      order.Perm (List.range pages.length) →
      process_pages f order pages = pages.map f := by
  intro α β f pages order hperm
  unfold process_pages
  apply filterMap_range_all_some
  intro j a ha
  have hj : j < pages.length := (List.get?_eq_some.mp ha).1
  have hmem : j ∈ order := hperm.mem_iff.mpr (List.mem_range.mpr hj)
  rw [find_completed f pages j a ha order hmem]
  rfl

/-- C4 witness: three pages completed in the order 2, 0, 1 still come
back in submission order. -/
theorem process_pages_preserves_order_witness :
    process_pages (fun x => x * 2) [2, 0, 1] [10, 20, 30] = [20, 40, 60] := by
  have h := process_pages_preserves_order (fun x : ℕ => x * 2)
    [10, 20, 30] [2, 0, 1] (by decide)
  simpa using h

/- ------------------------------------------------------------------
   C10: the SSE reader `readSseJson`.  The decoded byte stream is
   modelled as a list of character chunks (`TextDecoder` output); the
   external `JSON.parse` is an abstract function `parse` returning
   `none` where it would throw.
   ------------------------------------------------------------------ -/

/-- Embedding of `buffer.replace(/\r/g, '')`. -/
def removeCR (l : List Char) : List Char := l.filter (fun c => c != '\r')

/-- Embedding of `buffer.indexOf('\n\n')`: splits the buffer at the first blank-line
boundary into the raw event before it and the remainder after it;
`none` when the buffer holds no complete event. -/
def findBoundary : List Char → Option (List Char × List Char)
  | [] => none
  | [_] => none
  | c1 :: c2 :: rest =>
    if c1 = '\n' ∧ c2 = '\n' then some ([], rest)
    else (findBoundary (c2 :: rest)).map (fun p => (c1 :: p.1, p.2))

/-- A found boundary strictly shortens the remaining buffer. -/
theorem findBoundary_length :
    ∀ {l e r : List Char}, findBoundary l = some (e, r) →
      r.length + 2 ≤ l.length := by
  intro l
  induction l with
  | nil => intro e r h; simp [findBoundary] at h
  | cons c1 tl ih =>
    intro e r h
    cases tl with
    | nil => simp [findBoundary] at h
    | cons c2 rest =>
      rw [findBoundary] at h
      by_cases hnl : c1 = '\n' ∧ c2 = '\n'
      · rw [if_pos hnl] at h
        obtain ⟨he, hr⟩ := Prod.mk.injEq .. ▸ Option.some_inj.mp h
        subst hr
        simp
      · rw [if_neg hnl] at h
        rcases ho : findBoundary (c2 :: rest) with _ | p
        · rw [ho] at h; simp at h
        · rw [ho] at h
          simp only [Option.map_some'] at h
          obtain ⟨he, hr⟩ := Prod.mk.injEq .. ▸ Option.some_inj.mp h
          subst hr
          have := ih ho
          simp at this ⊢
          omega

/-- The reader's inner `while` loop: repeatedly split complete events
off the front of the buffer, returning them in stream order together
with the final (boundary-free) remainder. -/
def drainEvents (buf : List Char) : List (List Char) × List Char :=
  match hfb : findBoundary buf with
  | none => ([], buf)
  | some (e, rest) =>
    let p := drainEvents rest
    (e :: p.1, p.2)
termination_by buf.length
decreasing_by
  have := findBoundary_length hfb
  omega

/-- JavaScript `rawEvent.split('\n')`. -/
def splitNl : List Char → List (List Char)
  | [] => [[]]
  | c :: rest =>
    if c = '\n' then [] :: splitNl rest
    else
      match splitNl rest with
      | [] => [[c]]
      | l :: ls => (c :: l) :: ls

/-- JavaScript whitespace as removed by `trimStart` / `trim`. -/
def isJsWs (c : Char) : Bool :=
  c == ' ' || c == '\t' || c == '\n' || c == '\r' || c == '\x0b' || c == '\x0c'

/-- Embedding of `String.prototype.trimStart`. -/
def trimStartChars (l : List Char) : List Char := l.dropWhile isJsWs

/-- Trailing-whitespace removal. -/
def trimEndChars (l : List Char) : List Char := (l.reverse.dropWhile isJsWs).reverse

/-- Embedding of `String.prototype.trim`. -/
def trimChars (l : List Char) : List Char := trimEndChars (trimStartChars l)

/-- Embedding of `l.startsWith('data:')`. -/
def startsWithData (l : List Char) : Bool := l.take 5 == ['d', 'a', 't', 'a', ':']

/-- Embedding of `extractData(rawEvent)`: keep the `data:` lines, drop the 5-character
tag and leading whitespace of each, join with newlines and trim; the
empty payload stands for the `''` returned when the event has no data
line. -/
def extractData (rawEvent : List Char) : List Char :=
  let dataLines := (splitNl rawEvent).filter startsWithData
  if dataLines.isEmpty then []
  else
    trimChars (List.intercalate ['\n']
      (dataLines.map (fun l => trimStartChars (l.drop 5))))

/-- The per-event treatment of the reader's loop body and of its final
flush: skip the event when `extractData` is empty (`if (!dataStr)
continue`), otherwise yield `parse`'s result and swallow a parse
failure (`try { yield JSON.parse(...) } catch {}`). -/
def handleEvent {J : Type} (parse : List Char → Option J)
    (rawEvent : List Char) : Option J :=
  let d := extractData rawEvent
  if d.isEmpty then none else parse d

/-- The reader's loop state: the undelivered tail of the stream and the
values yielded so far. -/
structure SseState (J : Type) where
  buffer : List Char
  out : List J

/-- One iteration of the outer `while (true)` read loop: append the
decoded chunk, strip carriage returns, drain and yield every complete
event. -/
def processChunk {J : Type} (parse : List Char → Option J)
    (acc : SseState J) (chunk : List Char) : SseState J :=
  let buf := removeCR (acc.buffer ++ chunk)
  let p := drainEvents buf
  ⟨p.2, acc.out ++ p.1.filterMap (handleEvent parse)⟩

/-- Embedding of `readSseJson(stream)`: run the read loop over every chunk, then
flush the trailing event left in the buffer when the stream ends
without a final blank line; the returned list holds the yielded JSON
values in order. -/
def readSseJson {J : Type} (parse : List Char → Option J)
    (chunks : List (List Char)) : List J :=
  let final := chunks.foldl (processChunk parse) ⟨[], []⟩
  final.out ++ (handleEvent parse final.buffer).toList

/-- A boundary found in `a` is also the first boundary of `a ++ b`. -/
theorem findBoundary_append {e r : List Char} (b : List Char) :
    ∀ {a : List Char}, findBoundary a = some (e, r) →
      findBoundary (a ++ b) = some (e, r ++ b) := by
  intro a
  induction a generalizing e r with
  | nil => intro h; simp [findBoundary] at h
  | cons c1 tl ih =>
    intro h
    cases tl with
    | nil => simp [findBoundary] at h
    | cons c2 rest =>
      rw [findBoundary] at h
      rw [List.cons_append, List.cons_append, findBoundary]
      by_cases hnl : c1 = '\n' ∧ c2 = '\n'
      · rw [if_pos hnl] at h
        obtain ⟨he, hr⟩ := Prod.mk.injEq .. ▸ Option.some_inj.mp h
        rw [if_pos hnl, ← he, ← hr]
      · rw [if_neg hnl] at h
        rcases ho : findBoundary (c2 :: rest) with _ | p
        · rw [ho] at h; simp at h
        · rw [ho] at h
          simp only [Option.map_some'] at h
          obtain ⟨he, hr⟩ := Prod.mk.injEq .. ▸ Option.some_inj.mp h
          rw [if_neg hnl]
          have hx := ih (e := p.1) (r := p.2) ho
          rw [List.cons_append] at hx
          rw [hx]
          simp only [Option.map_some']
          rw [← he, ← hr]

/-- Splitting at a boundary decomposes the buffer as
`event ++ "\n\n" ++ rest`. -/
theorem findBoundary_decomp :
    ∀ {l e r : List Char}, findBoundary l = some (e, r) →
      l = e ++ '\n' :: '\n' :: r := by
  intro l
  induction l with
  | nil => intro e r h; simp [findBoundary] at h
  | cons c1 tl ih =>
    intro e r h
    cases tl with
    | nil => simp [findBoundary] at h
    | cons c2 rest =>
      rw [findBoundary] at h
      by_cases hnl : c1 = '\n' ∧ c2 = '\n'
      · rw [if_pos hnl] at h
        obtain ⟨he, hr⟩ := Prod.mk.injEq .. ▸ Option.some_inj.mp h
        rw [← he, ← hr, hnl.1, hnl.2]
        rfl
      · rw [if_neg hnl] at h
        rcases ho : findBoundary (c2 :: rest) with _ | p
        · rw [ho] at h; simp at h
        · rw [ho] at h
          simp only [Option.map_some'] at h
          obtain ⟨he, hr⟩ := Prod.mk.injEq .. ▸ Option.some_inj.mp h
          have := ih (e := p.1) (r := p.2) ho
          rw [← he, ← hr, List.cons_append, ← this]

/-- Unfolding `drainEvents` when no boundary remains. -/
theorem drainEvents_of_none {buf : List Char} (h : findBoundary buf = none) :
    drainEvents buf = ([], buf) := by
  rw [drainEvents, h]

/-- Unfolding `drainEvents` at a boundary. -/
theorem drainEvents_of_some {buf e rest : List Char}
    (h : findBoundary buf = some (e, rest)) :
    drainEvents buf = (e :: (drainEvents rest).1, (drainEvents rest).2) := by
  rw [drainEvents, h]

/-- The empty buffer has no boundary. -/
theorem findBoundary_nil : findBoundary [] = none := rfl

/-- The buffer left after draining holds no complete event. -/
theorem drainEvents_snd_none :
    ∀ (n : ℕ) (buf : List Char), buf.length ≤ n →
      findBoundary (drainEvents buf).2 = none := by
  intro n
  induction n with
  | zero =>
    intro buf hb
    have hbuf : buf = [] := List.length_eq_zero.mp (by omega)
    subst hbuf
    rw [drainEvents_of_none findBoundary_nil]
    exact findBoundary_nil
  | succ k ih =>
    intro buf hb
    rcases ho : findBoundary buf with _ | p
    · rw [drainEvents_of_none ho]; exact ho
    · obtain ⟨e, rest⟩ := p
      rw [drainEvents_of_some ho]
      have := findBoundary_length ho
      exact ih rest (by omega)

/-- No carriage return occurs in the list. -/
def CRFree (l : List Char) : Prop := ∀ c ∈ l, c ≠ '\r'

/-- Stripping carriage returns yields a CR-free list. -/
theorem removeCR_CRFree (l : List Char) : CRFree (removeCR l) := by
  intro c hc
  have := List.of_mem_filter hc
  simpa using this

/-- Stripping is the identity on CR-free lists. -/
theorem removeCR_of_CRFree {l : List Char} (h : CRFree l) : removeCR l = l := by
  apply List.filter_eq_self.mpr
  intro c hc
  simpa using h c hc

/-- Stripping distributes over append. -/
theorem removeCR_append (a b : List Char) :
    removeCR (a ++ b) = removeCR a ++ removeCR b := by
  simp [removeCR, List.filter_append]

/-- Draining a CR-free buffer leaves a CR-free remainder. -/
theorem drainEvents_snd_CRFree :
    ∀ (n : ℕ) (buf : List Char), buf.length ≤ n → CRFree buf →
      CRFree (drainEvents buf).2 := by
  intro n
  induction n with
  | zero =>
    intro buf hb hcr
    have hbuf : buf = [] := List.length_eq_zero.mp (by omega)
    subst hbuf
    rw [drainEvents_of_none findBoundary_nil]
    exact hcr
  | succ k ih =>
    intro buf hb hcr
    rcases ho : findBoundary buf with _ | p
    · rw [drainEvents_of_none ho]; exact hcr
    · obtain ⟨e, rest⟩ := p
      rw [drainEvents_of_some ho]
      have hlen := findBoundary_length ho
      have hdec := findBoundary_decomp ho
      have hrest : CRFree rest := by
        intro c hc
        exact hcr c (by rw [hdec]; simp [hc])
      exact ih rest (by omega) hrest

/-- Draining is a stream homomorphism: draining `a ++ b` first yields
`a`'s events, then the events of `a`'s remainder joined with `b`. -/
theorem drainEvents_append (b : List Char) :
    ∀ (n : ℕ) (a : List Char), a.length ≤ n →
      drainEvents (a ++ b) =
        ((drainEvents a).1 ++ (drainEvents ((drainEvents a).2 ++ b)).1,
          (drainEvents ((drainEvents a).2 ++ b)).2) := by
  intro n
  induction n with
  | zero =>
    intro a ha
    have hbuf : a = [] := List.length_eq_zero.mp (by omega)
    subst hbuf
    rw [drainEvents_of_none findBoundary_nil]
    simp
  | succ k ih =>
    intro a ha
    rcases ho : findBoundary a with _ | p
    · rw [drainEvents_of_none ho]
      simp
    · obtain ⟨e, rest⟩ := p
      have hlen := findBoundary_length ho
      rw [drainEvents_of_some ho]
      rw [drainEvents_of_some (findBoundary_append b ho)]
      have hr := ih rest (by omega)
      rw [hr]
      simp

/-- Invariant of the chunk loop: starting from a CR-free, boundary-free
buffer, folding the remaining chunks is the batch drain of the buffer
joined with the CR-stripped rest of the stream. -/
theorem foldl_processChunk {J : Type} (parse : List Char → Option J) :
    ∀ (chunks : List (List Char)) (b : List Char) (o : List J),
      CRFree b → findBoundary b = none →
      chunks.foldl (processChunk parse) ⟨b, o⟩ =
        ⟨(drainEvents (b ++ removeCR chunks.flatten)).2,
          o ++ ((drainEvents (b ++ removeCR chunks.flatten)).1).filterMap
            (handleEvent parse)⟩ := by
  intro chunks
  induction chunks with
  | nil =>
    intro b o hcr hnb
    rw [List.foldl_nil]
    have h1 : removeCR ([] : List (List Char)).flatten = [] := rfl
    rw [h1, List.append_nil, drainEvents_of_none hnb]
    simp
  | cons c cs ih =>
    intro b o hcr hnb
    rw [List.foldl_cons]
    have hpc : processChunk parse ⟨b, o⟩ c =
        ⟨(drainEvents (b ++ removeCR c)).2,
          o ++ ((drainEvents (b ++ removeCR c)).1).filterMap
            (handleEvent parse)⟩ := by
      unfold processChunk
      rw [removeCR_append, removeCR_of_CRFree hcr]
    rw [hpc]
    have hb' : CRFree (drainEvents (b ++ removeCR c)).2 :=
      drainEvents_snd_CRFree (b ++ removeCR c).length _ le_rfl
        (by
          intro x hx
          rcases List.mem_append.mp hx with h | h
          · exact hcr x h
          · exact removeCR_CRFree c x h)
    have hn' : findBoundary (drainEvents (b ++ removeCR c)).2 = none :=
      drainEvents_snd_none (b ++ removeCR c).length _ le_rfl
    rw [ih _ _ hb' hn']
    have hjoin : removeCR (c :: cs).flatten =
        removeCR c ++ removeCR cs.flatten := by
      rw [List.flatten_cons, removeCR_append]
    rw [hjoin, ← List.append_assoc]
    rw [drainEvents_append (removeCR cs.flatten) (b ++ removeCR c).length
      (b ++ removeCR c) le_rfl]
    simp [List.filterMap_append, List.append_assoc]

/-- The claim's batch reading of the reader, defined on the whole
stream text at once: strip carriage returns, split into the complete
blank-line-delimited events plus the trailing unterminated event, take
each event's joined `data:` payload, skip events whose payload is empty
or fails to parse, and return the parsed values in stream order. -/
def sseJsonSpec {J : Type} (parse : List Char → Option J)
    (text : List Char) : List J :=
  let p := drainEvents (removeCR text)
  (p.1 ++ [p.2]).filterMap (handleEvent parse)

/-- C10: for every input stream and every chunking of it, the
incremental reader `readSseJson` is total (it never throws: parse
failures and data-less events are skipped, not raised) and yields
exactly the batch characterization `sseJsonSpec` of the concatenated
stream — the parsed `data:` payloads of the complete events, in stream
order, with the trailing unterminated event still flushed at the end of
the stream. -/
theorem readSseJson_eq_batch :
    ∀ {J : Type} (parse : List Char → Option J) (chunks : List (List Char)),
      readSseJson parse chunks = sseJsonSpec parse chunks.flatten := by
  intro J parse chunks
  unfold readSseJson sseJsonSpec
  rw [foldl_processChunk parse chunks [] [] (by intro c hc; simp at hc)
    findBoundary_nil]
  simp only [List.nil_append]
  rw [List.filterMap_append]
  rcases h : handleEvent parse (drainEvents (removeCR chunks.flatten)).2 with _ | v <;>
    simp [h, List.filterMap_cons]
